import Mathlib

/-!
Verification development for the sql-support-bot repository.

The repository contributes a data-access layer of four tool functions over an
in-memory relational store loaded once at startup, plus an interactive shell
loop.  The tools build their SQL text by direct string interpolation of the
caller-supplied fragment into a fixed query template, for example:

  SELECT Album.Title, Artist.Name
  FROM Album
  JOIN Artist ON Album.ArtistId = Artist.ArtistId
  WHERE Artist.Name LIKE the-percent-wrapped-fragment

We embed this faithfully: text is a list of characters; the varying part of
each statement (the WHERE condition between the keyword WHERE and the closing
semicolon) is built by the same concatenation the source performs and is then
lexed and evaluated by a model of the SQLite fragment of SQL the interpolated
conditions can reach: a disjunction of LIKE atoms over single-quoted string
literals (with the doubled-quote escape), joined by OR.  A condition text
outside this grammar (for example an unbalanced quote, or a top-level
semicolon smuggling a second statement, which the single-statement sqlite3
driver rejects) evaluates to an error, modelled as Option.none.

LIKE semantics follow SQLite defaults: the percent sign matches any sequence,
the underscore matches exactly one character, and comparison is
case-insensitive for ASCII only, which is exactly the fold performed by
Char.toLower.  The relational part of each query (the joins and projections)
is translated directly from the SQL text of the source.
-/

namespace SupportBot

/-- The single-quote character, written by code to avoid quote literals. -/
def qc : Char := Char.ofNat 39

/-- The LIKE any-sequence wildcard. -/
def pc : Char := '%'

/-- The LIKE single-character wildcard. -/
def uc : Char := '_'

/-- ASCII-only case folding of a text, the fold SQLite LIKE applies. -/
def lowerTxt (s : List Char) : List Char := s.map Char.toLower

/-- Does the text start with the given segment? -/
def leadsWith : List Char → List Char → Bool
  | [], _ => true
  | _ :: _, [] => false
  | p :: ps, c :: cs => p = c && leadsWith ps cs

/-- Does the segment occur contiguously somewhere in the text? -/
def hasSeg : List Char → List Char → Bool
  | p, [] => p.isEmpty
  | p, s@(_ :: cs) => leadsWith p s || hasSeg p cs

/-- Case-insensitive containment of a fragment in a name, the intended
reading of a percent-wrapped LIKE with a metacharacter-free fragment. -/
def containsCI (frag name : List Char) : Bool :=
  hasSeg (lowerTxt frag) (lowerTxt name)

/-- All suffixes of a text, longest first. -/
def suffStr : List Char → List (List Char)
  | [] => [[]]
  | c :: cs => (c :: cs) :: suffStr cs

/-- SQLite LIKE matching: the percent sign matches any sequence, the
underscore matches one character, other characters compare with ASCII case
folding. -/
def likeMatch : List Char → List Char → Bool
  | [], s => s.isEmpty
  | x :: ps, s =>
    if x = pc then (suffStr s).any (fun t => likeMatch ps t)
    else
      match s with
      | [] => false
      | c :: cs => (x = uc || x.toLower = c.toLower) && likeMatch ps cs

/-- Lex a single-quoted SQL string literal, called just after the opening
quote: returns the literal content and the text after the closing quote.
A doubled quote denotes one quote character; a literal never closed is a
syntax error. -/
def lexLit : List Char → Option (List Char × List Char)
  | [] => none
  | c :: rest =>
    if c = qc then
      match rest with
      | c2 :: rest2 =>
        if c2 = qc then (lexLit rest2).map (fun pr => (qc :: pr.1, pr.2))
        else some ([], rest)
      | [] => some ([], [])
    else (lexLit rest).map (fun pr => (c :: pr.1, pr.2))

/-- Strip an expected leading segment from a text, or fail. -/
def dropLead? : List Char → List Char → Option (List Char)
  | [], s => some s
  | _ :: _, [] => none
  | p :: ps, c :: cs => if p = c then dropLead? ps cs else none

/-- The fixed text a LIKE atom on the given column starts with, up to and
including the opening quote of its pattern literal. -/
def likePreText (col : List Char) : List Char :=
  col ++ (" LIKE ".toList) ++ [qc]

/-- The OR separator between atoms. -/
def orSep : List Char := " OR ".toList

/-- Lex and parse the WHERE-condition text against the fragment of SQL the
theorems below rely on: one or more LIKE atoms on the fixed column, joined
by OR.  Returns the list of LIKE patterns of the disjuncts, or none.  This
grammar covers every quote-free interpolation (a fragment without a quote
cannot leave the pattern literal) and the OR-injection payload evaluated
under C1.  A quote-bearing fragment can reach valid SQL outside the grammar
(for example a UNION compound select), for which this parser answers none
although the real driver would execute it; therefore no theorem below draws
a conclusion from the error path on such inputs — none is relied on only
where the real driver likewise raises (an unterminated pattern literal).
Fuel-driven so the definition is structural and computes by reduction; the
wrapper below supplies fuel exceeding the text length, which is plenty since
every round consumes the atom prefix and its literal. -/
def parseDisjF (col : List Char) : Nat → List Char → Option (List (List Char))
  | 0, _ => none
  | fuel + 1, s =>
    match dropLead? (likePreText col) s with
    | none => none
    | some rest =>
      match lexLit rest with
      | none => none
      | some (pat, r) =>
        if r = [] then some [pat]
        else
          match dropLead? orSep r with
          | none => none
          | some r2 => (parseDisjF col fuel r2).map (fun ps => pat :: ps)

/-- Parse the WHERE-condition text of an interpolated query. -/
def parseDisj (col s : List Char) : Option (List (List Char)) :=
  parseDisjF col (s.length + 1) s

/-- A parsed condition holds of a name when some disjunct pattern matches. -/
def evalLikeDisj (pats : List (List Char)) (name : List Char) : Bool :=
  pats.any (fun p => likeMatch p name)

/-- The condition text the f-string templates produce: the column name, the
keyword LIKE, and the fragment wrapped in percent signs inside a quoted
literal.  This is exactly the text between WHERE and the closing semicolon in
the source queries. -/
def condText (col frag : List Char) : List Char :=
  likePreText col ++ (pc :: frag) ++ [pc, qc]

/-- The column reference of the artist-name conditions. -/
def artistNameCol : List Char := "Artist.Name".toList

/-- The column reference of the track-name condition. -/
def trackNameCol : List Char := "Name".toList

/-- An Artist row: identity and free-text name. -/
structure Artist where
  artistId : Int
  name : List Char
  deriving DecidableEq

/-- An Album row: identity, title, owning artist reference. -/
structure Album where
  albumId : Int
  title : List Char
  artistId : Int
  deriving DecidableEq

/-- A Track row: identity, name, owning album reference (nullable in the
Chinook schema).  Further profile columns are irrelevant to every claim. -/
structure Track where
  trackId : Int
  name : List Char
  albumId : Option Int
  deriving DecidableEq

/-- A Customer row: numeric identity plus opaque profile fields. -/
structure Customer where
  customerId : Int
  profile : List (List Char)
  deriving DecidableEq

/-- The in-memory relational store. -/
structure Store where
  artists : List Artist
  albums : List Album
  tracks : List Track
  customers : List Customer
  deriving DecidableEq

/-- The inner join of Album with Artist on ArtistId, in nested-loop order:
FROM Album JOIN Artist ON Album.ArtistId = Artist.ArtistId. -/
def albumArtistJoin (s : Store) : List (Album × Artist) :=
  (s.albums.map (fun al =>
    (s.artists.filter (fun ar => al.artistId == ar.artistId)).map
      (fun ar => (al, ar)))).flatten

/-- FROM Album LEFT JOIN Artist ON Album.ArtistId = Artist.ArtistId: albums
without a matching artist survive with an absent artist. -/
def albumArtistLeftJoin (s : Store) : List (Album × Option Artist) :=
  (s.albums.map (fun al =>
    match s.artists.filter (fun ar => al.artistId == ar.artistId) with
    | [] => [(al, none)]
    | l => l.map (fun ar => (al, some ar)))).flatten

/-- ... LEFT JOIN Track ON Track.AlbumId = Album.AlbumId: join rows without
a matching track survive with an absent track. -/
def tracksLeftJoin (s : Store) :
    List ((Album × Option Artist) × Option Track) :=
  ((albumArtistLeftJoin s).map (fun p =>
    match s.tracks.filter (fun t => t.albumId == some p.1.albumId) with
    | [] => [(p, none)]
    | l => l.map (fun t => (p, some t)))).flatten

/-- get_albums_by_artist: SELECT Album.Title, Artist.Name FROM Album JOIN
Artist ON Album.ArtistId = Artist.ArtistId WHERE Artist.Name LIKE the
percent-wrapped interpolated fragment.  none models a SQL error raised by
the driver on a condition outside the reachable grammar. -/
def get_albums_by_artist (frag : List Char) (s : Store) :
    Option (List (List Char × List Char)) :=
  match parseDisj artistNameCol (condText artistNameCol frag) with
  | none => none
  | some pats =>
    some (((albumArtistJoin s).filter
        (fun p => evalLikeDisj pats p.2.name)).map
      (fun p => (p.1.title, p.2.name)))

/-- get_tracks_by_artist: SELECT Track.Name as SongName, Artist.Name as
ArtistName FROM Album LEFT JOIN Artist ON Album.ArtistId = Artist.ArtistId
LEFT JOIN Track ON Track.AlbumId = Album.AlbumId WHERE Artist.Name LIKE the
percent-wrapped interpolated fragment.  A NULL artist name fails the WHERE
comparison, so rows with an absent artist are filtered out. -/
def get_tracks_by_artist (frag : List Char) (s : Store) :
    Option (List (Option (List Char) × Option (List Char))) :=
  match parseDisj artistNameCol (condText artistNameCol frag) with
  | none => none
  | some pats =>
    some ((((tracksLeftJoin s).filter (fun r =>
        match r.1.2 with
        | none => false
        | some ar => evalLikeDisj pats ar.name))).map
      (fun r => (r.2.map (fun t => t.name), r.1.2.map (fun a => a.name))))

/-- check_for_songs: SELECT * FROM Track WHERE Name LIKE the percent-wrapped
interpolated fragment. -/
def check_for_songs (frag : List Char) (s : Store) : Option (List Track) :=
  match parseDisj trackNameCol (condText trackNameCol frag) with
  | none => none
  | some pats =>
    some (s.tracks.filter (fun t => evalLikeDisj pats t.name))

/-- get_customer_info: SELECT * FROM Customer WHERE CustomerID equals the
interpolated identifier.  The Python parameter is typed int, and an integer
interpolates to its decimal numeral, which SQLite parses back to the same
integer, so the lookup is modelled directly as exact equality on the key. -/
def get_customer_info (n : Int) (s : Store) : List Customer :=
  s.customers.filter (fun c => c.customerId == n)

/-- The statements the store driver can execute.  The four select shapes are
the ones the tool templates produce; the delete shape witnesses that the
statement space genuinely admits mutation, so that reading leaves the store
unchanged is a fact about the tools, not about the state type.  The sqlite3
driver executes exactly one statement per call, so a tool invocation issues
exactly one of these. -/
inductive Stmt where
  | selAlbums (frag : List Char)
  | selTracks (frag : List Char)
  | selSongs (frag : List Char)
  | selCustomer (customerId : Int)
  | deleteAlbums
  deriving DecidableEq

/-- Result rows of a statement, by shape. -/
inductive QOut where
  | albums (rows : List (List Char × List Char))
  | tracks (rows : List (Option (List Char) × Option (List Char)))
  | songs (rows : List Track)
  | customers (rows : List Customer)
  | affected (n : Nat)
  deriving DecidableEq

/-- Execute one statement against the store, returning the store after the
statement and its result (none models a SQL error). -/
def execStmt : Stmt → Store → Store × Option QOut
  | .selAlbums f, s => (s, (get_albums_by_artist f s).map QOut.albums)
  | .selTracks f, s => (s, (get_tracks_by_artist f s).map QOut.tracks)
  | .selSongs f, s => (s, (check_for_songs f s).map QOut.songs)
  | .selCustomer n, s => (s, some (QOut.customers (get_customer_info n s)))
  | .deleteAlbums, s =>
    ({ s with albums := [] }, some (QOut.affected s.albums.length))

/-- The per-call error signals of the tool layer. -/
inductive ToolError where
  | invalidArgument
  | sqlError
  deriving DecidableEq

/-- Parse an unsigned decimal numeral. -/
def parseNatAux : List Char → Nat → Option Nat
  | [], acc => some acc
  | c :: cs, acc =>
    if c.isDigit then parseNatAux cs (acc * 10 + (c.toNat - 48)) else none

/-- Parse a nonempty unsigned decimal numeral. -/
def parseNat? : List Char → Option Nat
  | [] => none
  | l => parseNatAux l 0

/-- Modelled from the spec: the tool-invocation layer of the external agent
runtime validates arguments against the declared schema before calling the
tool body; the declared type int of the customer identifier (the annotation
is in the source) makes that layer coerce the textual argument to an integer
and reject non-numeric text.  The numeral grammar is an optional minus sign
followed by decimal digits. -/
def parseIntArg : List Char → Option Int
  | [] => none
  | c :: cs =>
    if c = '-' then (parseNat? cs).map (fun n => -(n : Int))
    else (parseNat? (c :: cs)).map (fun n => (n : Int))

/-- Modelled from the spec: invoking get_customer_info through the validating
tool layer.  A non-numeric argument yields the structured InvalidArgument
signal without reaching the query; a numeric one runs the exact-match
lookup. -/
def get_customer_info_call (arg : List Char) (s : Store) :
    Except ToolError (List Customer) :=
  match parseIntArg arg with
  | none => .error .invalidArgument
  | some n => .ok (get_customer_info n s)

/-- Invoking get_albums_by_artist through the tool layer: the declared
argument type is str, so every text is accepted; only a SQL error can
fail. -/
def get_albums_by_artist_call (arg : List Char) (s : Store) :
    Except ToolError (List (List Char × List Char)) :=
  match get_albums_by_artist arg s with
  | none => .error .sqlError
  | some r => .ok r

/-- Invoking get_tracks_by_artist through the tool layer. -/
def get_tracks_by_artist_call (arg : List Char) (s : Store) :
    Except ToolError (List (Option (List Char) × Option (List Char))) :=
  match get_tracks_by_artist arg s with
  | none => .error .sqlError
  | some r => .ok r

/-- Invoking check_for_songs through the tool layer. -/
def check_for_songs_call (arg : List Char) (s : Store) :
    Except ToolError (List Track) :=
  match check_for_songs arg s with
  | none => .error .sqlError
  | some r => .ok r

/-- Startup failures of the store loader. -/
inductive LoadError where
  | networkFailure
  | scriptError
  deriving DecidableEq

/-- Outcome of requests.get on the fixed script location: either the library
raises (network unreachable, connection dropped while reading the body), or
it returns a response carrying a status code and a body text.  A non-success
status does not raise by itself. -/
inductive FetchResult where
  | failed
  | response (status : Nat) (body : List Char)
  deriving DecidableEq

/-- A store with nothing loaded. -/
def emptyStore : Store := ⟨[], [], [], []⟩

/-- Model of sqlite3 executescript at the two points the claims need: the
empty script executes cleanly and leaves the fresh store empty, and any
other body that is not a valid script raises.  Bodies are classified by a
caller-supplied validity map in the general loader below; this instance
fixes the classification to: empty body succeeds, everything else fails. -/
def executescriptEmptyOnly : List Char → Except Unit Store :=
  fun body => if body = [] then .ok emptyStore else .error ()

/-- get_engine_for_chinook_db: fetch the script from the fixed location and
apply it in full to a fresh in-memory store.  The script application is the
library boundary, passed as a function; faithful to the source, the response
status is never inspected (there is no raise_for_status call), and an
exception from either library call propagates, aborting startup. -/
def get_engine_for_chinook_db
    (executescript : List Char → Except Unit Store)
    (fetch : FetchResult) : Except LoadError Store :=
  match fetch with
  | .failed => .error .networkFailure
  | .response _ body =>
    match executescript body with
    | .error _ => .error .scriptError
    | .ok s => .ok s

/-- One role-tagged entry of the conversation history. -/
structure Msg where
  role : List Char
  content : List Char
  deriving DecidableEq

/-- The user role tag. -/
def userRole : List Char := "user".toList

/-- The assistant role tag. -/
def assistantRole : List Char := "assistant".toList

/-- The case-folded keywords that terminate the shell loop. -/
def exitWords : List (List Char) :=
  ["quit", "exit", "q"].map String.toList

/-- Outcome of one round of the interactive loop. -/
inductive StepOut where
  | exited (finalHist : List Msg)
  | stepped (newHist : List Msg) (printed : Option (List Char))
  | crashed
  deriving DecidableEq

/-- One round of the interactive shell loop, translated from the main block:
lowercase the input line and break on an exit keyword without touching the
history; otherwise append the line as a user entry, invoke the agent runtime
on the full history, and if the result carries a message list, print the
content of its last message and append it back as an assistant entry.  The
agent runtime is opaque and passed as a function; none models a falsy result
or one without a messages key, in which case nothing is printed or appended.
Indexing the last element of an empty message list raises, modelled as
crashed. -/
def shellStep (invoke : List Msg → Option (List Msg))
    (hist : List Msg) (line : List Char) : StepOut :=
  if lowerTxt line ∈ exitWords then .exited hist
  else
    let hist1 := hist ++ [⟨userRole, line⟩]
    match invoke hist1 with
    | none => .stepped hist1 none
    | some msgs =>
      match msgs.getLast? with
      | none => .crashed
      | some m =>
        .stepped (hist1 ++ [⟨assistantRole, m.content⟩]) (some m.content)

theorem dropLead_append (p r : List Char) : dropLead? p (p ++ r) = some r := by
  induction p with
  | nil => rfl
  | cons c cs ih => simp [dropLead?, ih]

theorem lexLit_closed (content : List Char) (h : qc ∉ content) :
    lexLit (content ++ [qc]) = some (content, []) := by
  induction content with
  | nil => simp [lexLit]
  | cons c cs ih =>
    have hc : c ≠ qc := fun hc => h (hc ▸ List.mem_cons_self c cs)
    have hcs : qc ∉ cs := fun hm => h (List.mem_cons_of_mem c hm)
    rw [List.cons_append, lexLit.eq_def]
    simp [hc, ih hcs]

theorem parseDisj_clean (col frag : List Char) (h : qc ∉ frag) :
    parseDisj col (condText col frag) = some [pc :: (frag ++ [pc])] := by
  have hpat : qc ∉ pc :: (frag ++ [pc]) := by
    intro hm
    rcases List.mem_cons.mp hm with h1 | h1
    · exact absurd h1.symm (by decide)
    · rcases List.mem_append.mp h1 with h2 | h2
      · exact h h2
      · simp at h2
        exact absurd h2.symm (by decide)
  have hlex := lexLit_closed (pc :: (frag ++ [pc])) hpat
  have hshape : condText col frag
      = likePreText col ++ ((pc :: (frag ++ [pc])) ++ [qc]) := by
    simp [condText]
  rw [parseDisj, hshape]
  simp only [parseDisjF, dropLead_append, hlex, if_pos rfl]
  simp

theorem nil_mem_suffStr (s : List Char) : [] ∈ suffStr s := by
  induction s with
  | nil => simp [suffStr]
  | cons c cs ih => simp [suffStr, ih]

theorem mem_suffStr {t s : List Char} : t ∈ suffStr s ↔ ∃ u, u ++ t = s := by
  induction s with
  | nil =>
    simp only [suffStr, List.mem_singleton]
    constructor
    · rintro rfl; exact ⟨[], rfl⟩
    · rintro ⟨u, hu⟩
      exact (List.append_eq_nil.mp hu).2
  | cons c cs ih =>
    simp only [suffStr, List.mem_cons, ih]
    constructor
    · rintro (rfl | ⟨u, hu⟩)
      · exact ⟨[], rfl⟩
      · exact ⟨c :: u, by simp [hu]⟩
    · rintro ⟨u, hu⟩
      cases u with
      | nil =>
        left
        simpa using hu
      | cons x xs =>
        right
        refine ⟨xs, ?_⟩
        have h2 := hu
        simp only [List.cons_append, List.cons.injEq] at h2
        exact h2.2

theorem likeMatch_nil_iff {s : List Char} :
    likeMatch [] s = true ↔ s = [] := by
  simp [likeMatch, List.isEmpty_iff]

theorem likeMatch_pct_cons {ps s : List Char} :
    likeMatch (pc :: ps) s = true ↔
      ∃ u t, u ++ t = s ∧ likeMatch ps t = true := by
  have hunfold : likeMatch (pc :: ps) s
      = (suffStr s).any (fun t => likeMatch ps t) := by
    simp [likeMatch]
  rw [hunfold, List.any_eq_true]
  constructor
  · rintro ⟨t, ht, hm⟩
    rcases mem_suffStr.mp ht with ⟨u, hu⟩
    exact ⟨u, t, hu, hm⟩
  · rintro ⟨u, t, hu, hm⟩
    exact ⟨t, mem_suffStr.mpr ⟨u, hu⟩, hm⟩

theorem likeMatch_pct_all (s : List Char) : likeMatch [pc] s = true :=
  likeMatch_pct_cons.mpr ⟨s, [], by simp, likeMatch_nil_iff.mpr rfl⟩

theorem likeMatch_self {p w : List Char} (h : lowerTxt p = lowerTxt w) :
    likeMatch p w = true := by
  induction p generalizing w with
  | nil =>
    have : w = [] := by simpa [lowerTxt, List.map_eq_nil_iff] using h.symm
    subst this
    exact likeMatch_nil_iff.mpr rfl
  | cons x ps ih =>
    cases w with
    | nil => simp [lowerTxt] at h
    | cons c cs =>
      simp only [lowerTxt, List.map_cons, List.cons.injEq] at h
      obtain ⟨hx, hps⟩ := h
      by_cases hpc : x = pc
      · subst hpc
        exact likeMatch_pct_cons.mpr
          ⟨[c], cs, rfl, ih (by simpa [lowerTxt] using hps)⟩
      · simp [likeMatch, hpc, hx, ih (by simpa [lowerTxt] using hps)]

theorem likeMatch_append {p q u v : List Char}
    (hp : likeMatch p u = true) (hq : likeMatch q v = true) :
    likeMatch (p ++ q) (u ++ v) = true := by
  induction p generalizing u with
  | nil =>
    have : u = [] := likeMatch_nil_iff.mp hp
    simpa [this] using hq
  | cons x ps ih =>
    by_cases hpc : x = pc
    · subst hpc
      rcases likeMatch_pct_cons.mp hp with ⟨a, t, hat, hm⟩
      refine likeMatch_pct_cons.mpr ⟨a, t ++ v, ?_, ih hm⟩
      rw [← List.append_assoc, hat]
    · cases u with
      | nil => simp [likeMatch, hpc] at hp
      | cons c cs =>
        simp only [likeMatch, hpc, if_false, Bool.and_eq_true] at hp
        simp only [List.cons_append, likeMatch, hpc, if_false,
          Bool.and_eq_true]
        exact ⟨hp.1, ih hp.2⟩

theorem likeMatch_nowild_iff {p : List Char} (hpc : pc ∉ p) (huc : uc ∉ p)
    {s : List Char} : likeMatch p s = true ↔ lowerTxt p = lowerTxt s := by
  induction p generalizing s with
  | nil =>
    rw [likeMatch_nil_iff]
    constructor
    · rintro rfl; rfl
    · intro h
      simpa [lowerTxt, eq_comm, List.map_eq_nil_iff] using h
  | cons x ps ih =>
    have hx1 : x ≠ pc := fun h => hpc (h ▸ List.mem_cons_self x ps)
    have hx2 : x ≠ uc := fun h => huc (h ▸ List.mem_cons_self x ps)
    have hps1 : pc ∉ ps := fun h => hpc (List.mem_cons_of_mem x h)
    have hps2 : uc ∉ ps := fun h => huc (List.mem_cons_of_mem x h)
    cases s with
    | nil => simp [likeMatch, hx1, lowerTxt]
    | cons c cs =>
      simp only [likeMatch, hx1, if_false, hx2, Bool.false_or,
        Bool.and_eq_true, decide_eq_true_eq, lowerTxt, List.map_cons,
        List.cons.injEq]
      rw [ih hps1 hps2]
      simp [lowerTxt]

theorem likeMatch_cons_nil {x : Char} (hx : x ≠ pc) (l : List Char) :
    likeMatch (x :: l) [] = false := by
  simp [likeMatch, hx]

theorem likeMatch_cons_cons {x : Char} (hx : x ≠ pc) (l : List Char)
    (c : Char) (cs : List Char) :
    likeMatch (x :: l) (c :: cs)
      = ((x = uc || x.toLower = c.toLower) && likeMatch l cs) := by
  simp [likeMatch, hx]

theorem likeMatch_append_nowild {p : List Char} (hpc : pc ∉ p)
    (huc : uc ∉ p) {q s : List Char} :
    likeMatch (p ++ q) s = true ↔
      ∃ u v, s = u ++ v ∧ lowerTxt u = lowerTxt p ∧ likeMatch q v = true := by
  induction p generalizing s with
  | nil =>
    constructor
    · intro h
      exact ⟨[], s, rfl, rfl, by simpa using h⟩
    · rintro ⟨u, v, rfl, hu, hv⟩
      have : u = [] := by simpa [lowerTxt, List.map_eq_nil_iff] using hu
      simpa [this] using hv
  | cons x ps ih =>
    have hx1 : x ≠ pc := fun h => hpc (h ▸ List.mem_cons_self x ps)
    have hx2 : x ≠ uc := fun h => huc (h ▸ List.mem_cons_self x ps)
    have hps1 : pc ∉ ps := fun h => hpc (List.mem_cons_of_mem x h)
    have hps2 : uc ∉ ps := fun h => huc (List.mem_cons_of_mem x h)
    cases s with
    | nil =>
      rw [List.cons_append, likeMatch_cons_nil hx1]
      simp only [Bool.false_eq_true, false_iff]
      rintro ⟨u, v, huv, hu, hv⟩
      have hu0 : u = [] := (List.append_eq_nil.mp huv.symm).1
      subst hu0
      simp [lowerTxt] at hu
    | cons c cs =>
      rw [List.cons_append, likeMatch_cons_cons hx1, Bool.and_eq_true,
        ih hps1 hps2]
      constructor
      · rintro ⟨hxc, u, v, rfl, hu, hv⟩
        have hxc2 : x.toLower = c.toLower := by
          simpa [hx2] using hxc
        refine ⟨c :: u, v, rfl, ?_, hv⟩
        simp only [lowerTxt, List.map_cons, List.cons.injEq]
        exact ⟨hxc2.symm, by simpa [lowerTxt] using hu⟩
      · rintro ⟨u, v, huv, hu, hv⟩
        cases u with
        | nil => simp [lowerTxt] at hu
        | cons y ys =>
          have h2 := huv
          simp only [List.cons_append, List.cons.injEq] at h2
          obtain ⟨rfl, rfl⟩ := h2
          simp only [lowerTxt, List.map_cons, List.cons.injEq] at hu
          refine ⟨?_, ys, v, rfl, by simpa [lowerTxt] using hu.2, hv⟩

          simp [hu.1.symm]

theorem leadsWith_iff {p s : List Char} :
    leadsWith p s = true ↔ ∃ v, s = p ++ v := by
  induction p generalizing s with
  | nil => simp [leadsWith]
  | cons x ps ih =>
    cases s with
    | nil => simp [leadsWith]
    | cons c cs =>
      simp only [leadsWith, Bool.and_eq_true, decide_eq_true_eq, ih,
        List.cons_append, List.cons.injEq]
      constructor
      · rintro ⟨rfl, v, rfl⟩; exact ⟨v, rfl, rfl⟩
      · rintro ⟨v, rfl, rfl⟩; exact ⟨rfl, v, rfl⟩

theorem hasSeg_iff {p s : List Char} :
    hasSeg p s = true ↔ ∃ u v, s = u ++ p ++ v := by
  induction s with
  | nil =>
    simp [hasSeg, List.isEmpty_iff]
  | cons c cs ih =>
    simp only [hasSeg, Bool.or_eq_true, leadsWith_iff, ih]
    constructor
    · rintro (⟨v, hv⟩ | ⟨u, v, hv⟩)
      · exact ⟨[], v, by simpa using hv⟩
      · exact ⟨c :: u, v, by simp [hv]⟩
    · rintro ⟨u, v, huv⟩
      cases u with
      | nil => left; exact ⟨v, by simpa using huv⟩
      | cons y ys =>
        right
        simp only [List.cons_append, List.cons.injEq] at huv
        exact ⟨ys, v, huv.2⟩

theorem map_decomp {f : Char → Char} {l a b : List Char}
    (h : l.map f = a ++ b) :
    ∃ la lb, l = la ++ lb ∧ la.map f = a ∧ lb.map f = b := by
  rcases List.map_eq_append_iff.mp h with ⟨la, lb, h1, h2, h3⟩
  exact ⟨la, lb, h1, h2, h3⟩

theorem containsCI_likeMatch {f n : List Char}
    (h : containsCI f n = true) :
    likeMatch (pc :: (f ++ [pc])) n = true := by
  rcases hasSeg_iff.mp h with ⟨a, b, hab⟩
  have hab2 : n.map Char.toLower = (a ++ f.map Char.toLower) ++ b := by
    simpa [lowerTxt, List.append_assoc] using hab
  rcases map_decomp hab2 with ⟨n12, n3, hn, hn12, hn3⟩
  rcases map_decomp hn12 with ⟨n1, n2, hn12e, hn1, hn2⟩
  subst hn12e
  refine likeMatch_pct_cons.mpr ⟨n1, n2 ++ n3, ?_, ?_⟩
  · rw [hn]
    simp [List.append_assoc]
  · refine likeMatch_append (likeMatch_self ?_) (likeMatch_pct_all n3)
    simpa [lowerTxt] using hn2.symm

theorem mem_albumArtistJoin {s : Store} {al : Album} {ar : Artist} :
    (al, ar) ∈ albumArtistJoin s ↔
      al ∈ s.albums ∧ ar ∈ s.artists ∧ al.artistId = ar.artistId := by
  simp only [albumArtistJoin, List.mem_flatten, List.mem_map]
  constructor
  · rintro ⟨l, ⟨al2, hal2, rfl⟩, hmem⟩
    rcases List.mem_map.mp hmem with ⟨ar2, har2, heq⟩
    obtain ⟨rfl, rfl⟩ := Prod.mk.injEq .. ▸ heq
    rcases List.mem_filter.mp har2 with ⟨har, hid⟩
    exact ⟨hal2, har, beq_iff_eq.mp hid⟩
  · rintro ⟨hal, har, hid⟩
    refine ⟨_, ⟨al, hal, rfl⟩, ?_⟩
    exact List.mem_map.mpr
      ⟨ar, List.mem_filter.mpr ⟨har, beq_iff_eq.mpr hid⟩, rfl⟩

theorem mem_albumArtistLeftJoin_some {s : Store} {al : Album} {ar : Artist}
    (hal : al ∈ s.albums) (har : ar ∈ s.artists)
    (hid : al.artistId = ar.artistId) :
    (al, some ar) ∈ albumArtistLeftJoin s := by
  simp only [albumArtistLeftJoin, List.mem_flatten, List.mem_map]
  refine ⟨_, ⟨al, hal, rfl⟩, ?_⟩
  have harf : ar ∈ s.artists.filter (fun a => al.artistId == a.artistId) :=
    List.mem_filter.mpr ⟨har, beq_iff_eq.mpr hid⟩
  cases hflt : s.artists.filter (fun a => al.artistId == a.artistId) with
  | nil => rw [hflt] at harf; cases harf
  | cons y ys =>
    rw [hflt] at harf
    exact List.mem_map.mpr ⟨ar, harf, rfl⟩

theorem mem_albumArtistLeftJoin_inv {s : Store} {p : Album × Option Artist}
    (h : p ∈ albumArtistLeftJoin s) :
    p.1 ∈ s.albums ∧
      ∀ ar, p.2 = some ar → ar ∈ s.artists ∧ p.1.artistId = ar.artistId := by
  simp only [albumArtistLeftJoin, List.mem_flatten, List.mem_map] at h
  rcases h with ⟨l, ⟨al, hal, rfl⟩, hmem⟩
  cases hflt : s.artists.filter (fun a => al.artistId == a.artistId) with
  | nil =>
    rw [hflt] at hmem
    rcases List.mem_singleton.mp hmem with rfl
    exact ⟨hal, by simp⟩
  | cons y ys =>
    rw [hflt] at hmem
    rcases List.mem_map.mp hmem with ⟨ar, harf, rfl⟩
    have har2 : ar ∈ s.artists.filter (fun a => al.artistId == a.artistId) :=
      hflt ▸ harf
    rcases List.mem_filter.mp har2 with ⟨har, hid⟩
    refine ⟨hal, ?_⟩
    rintro ar2 heq
    cases heq
    exact ⟨har, beq_iff_eq.mp hid⟩

theorem mem_tracksLeftJoin_none {s : Store} {p : Album × Option Artist}
    (hp : p ∈ albumArtistLeftJoin s)
    (hnt : s.tracks.filter (fun t => t.albumId == some p.1.albumId) = []) :
    (p, (none : Option Track)) ∈ tracksLeftJoin s := by
  simp only [tracksLeftJoin, List.mem_flatten, List.mem_map]
  refine ⟨_, ⟨p, hp, rfl⟩, ?_⟩
  rw [hnt]
  simp

theorem mem_tracksLeftJoin_inv {s : Store}
    {r : (Album × Option Artist) × Option Track}
    (h : r ∈ tracksLeftJoin s) : r.1 ∈ albumArtistLeftJoin s := by
  simp only [tracksLeftJoin, List.mem_flatten, List.mem_map] at h
  rcases h with ⟨l, ⟨p, hp, rfl⟩, hmem⟩
  cases hflt : s.tracks.filter (fun t => t.albumId == some p.1.albumId) with
  | nil =>
    rw [hflt] at hmem
    rcases List.mem_singleton.mp hmem with rfl
    exact hp
  | cons y ys =>
    rw [hflt] at hmem
    rcases List.mem_map.mp hmem with ⟨t, htf, rfl⟩
    exact hp

theorem filter_customers_none {l : List Customer} {n : Int}
    (h : ∀ c ∈ l, c.customerId ≠ n) :
    l.filter (fun c => c.customerId == n) = [] :=
  List.filter_eq_nil_iff.mpr (fun c hc => by simp [h c hc])

theorem filter_customers_unique {l : List Customer} {n : Int} {c : Customer}
    (hp : l.Pairwise (fun a b => a.customerId ≠ b.customerId))
    (hc : c ∈ l) (hn : c.customerId = n) :
    l.filter (fun x => x.customerId == n) = [c] := by
  induction l with
  | nil => cases hc
  | cons x xs ih =>
    rcases List.pairwise_cons.mp hp with ⟨hx, hxs⟩
    rcases List.mem_cons.mp hc with rfl | hc2
    · rw [List.filter_cons_of_pos (by simp [hn])]
      have : xs.filter (fun x => x.customerId == n) = [] :=
        filter_customers_none (fun b hb => fun hbn =>
          hx b hb (by rw [hn, hbn]))
      rw [this]
    · have hxn : x.customerId ≠ n := fun hxn =>
        hx c hc2 (by rw [hxn, hn])
      rw [List.filter_cons_of_neg (by simp [hxn])]
      exact ih hxs hc2

theorem likeMatch_wrapped_iff {f : List Char} (hpc : pc ∉ f) (huc : uc ∉ f)
    {n : List Char} :
    likeMatch (pc :: (f ++ [pc])) n = true ↔ containsCI f n = true := by
  constructor
  · intro h
    rcases likeMatch_pct_cons.mp h with ⟨w, t, hwt, hm⟩
    rcases (likeMatch_append_nowild hpc huc).mp hm with ⟨u, v, rfl, hu, hv⟩
    refine hasSeg_iff.mpr ⟨lowerTxt w, lowerTxt v, ?_⟩
    have hu2 : u.map Char.toLower = f.map Char.toLower := by
      simpa [lowerTxt] using hu
    calc lowerTxt n = lowerTxt (w ++ (u ++ v)) := by rw [hwt]
      _ = lowerTxt w ++ lowerTxt f ++ lowerTxt v := by
          simp [lowerTxt, hu2, List.append_assoc]
  · exact containsCI_likeMatch

/-- A one-artist, one-album store used to evaluate concrete calls. -/
def stAlpha : Store :=
  ⟨[⟨1, "Alpha".toList⟩], [⟨1, "A".toList, 1⟩], [], []⟩

/-- A classic injection payload: close the pattern literal early and attach
a second LIKE disjunct whose pattern is a bare percent sign, which matches
every artist. -/
def injFrag : List Char :=
  "zzz".toList ++ [qc] ++ " OR Artist.Name LIKE ".toList ++ [qc]

/-- A store whose only artist owns zero albums. -/
def stX : Store := ⟨[⟨1, "X".toList⟩], [], [], []⟩

/-- A store where artist X owns zero albums and artist Y owns one. -/
def stXY : Store :=
  ⟨[⟨1, "X".toList⟩, ⟨2, "Y".toList⟩], [⟨1, "A".toList, 2⟩], [], []⟩

/-- Claim C1: every tool treats the input fragment as literal text, with no
change to query structure and no unintended rows, even for fragments holding
query metacharacters.  The code interpolates the raw fragment into the query
text, so the payload above rewrites the WHERE clause into two OR-ed LIKE
conditions and get_albums_by_artist returns the album of an artist whose
name does not contain the fragment at all; the spec itself names direct
interpolation a defect to fix, so this is a bug of the code, not of the
claim.  This theorem evaluates the code at the failing input: the full album
list comes back although no artist name contains the fragment. -/
theorem c1_injection_defeats_literal_matching :
    get_albums_by_artist injFrag stAlpha
        = some [("A".toList, "Alpha".toList)]
      ∧ containsCI injFrag "Alpha".toList = false := by
  exact ⟨rfl, rfl⟩

/-- Claim C2, counterexample: artist X matches the fragment (its name is the
fragment) and owns zero albums, yet get_tracks_by_artist returns an empty
row list rather than a row for X: the query selects FROM Album, so an artist
without albums never surfaces. -/
theorem c2_counterexample_zero_album_artist_dropped :
    containsCI "X".toList "X".toList = true
      ∧ stX.artists = [⟨1, "X".toList⟩]
      ∧ stX.albums = []
      ∧ get_tracks_by_artist "X".toList stX = some [] := by
  exact ⟨rfl, rfl, rfl, rfl⟩

/-- Claim C2, amended: for every fragment free of the quote character — so
the fragment stays inside the LIKE pattern literal and cannot rewrite the
query — an artist who owns zero albums is silently dropped by
get_tracks_by_artist: the call succeeds and no returned row carries that
artist's name (names assumed not shared with another artist), because every
result row descends from an Album row.  A quote-bearing fragment can
rewrite the query itself (the C1 defect): for example a UNION compound
select can surface even album-less artists, which is why the restriction is
needed. -/
theorem c2_zero_album_artist_yields_no_row
    (frag : List Char) (s : Store) (a : Artist)
    (hq : qc ∉ frag)
    (hnoal : ∀ al ∈ s.albums, al.artistId ≠ a.artistId)
    (huniq : ∀ ar ∈ s.artists, ar.name = a.name → ar = a) :
    ∃ rows, get_tracks_by_artist frag s = some rows
      ∧ ∀ r ∈ rows, r.2 ≠ some a.name := by
  have hp := parseDisj_clean artistNameCol frag hq
  refine ⟨(((tracksLeftJoin s).filter (fun r =>
      match r.1.2 with
      | none => false
      | some a2 => evalLikeDisj [pc :: (frag ++ [pc])] a2.name)).map
      (fun r => (r.2.map (fun t => t.name), r.1.2.map (fun ar => ar.name)))),
      ?_, ?_⟩
  · unfold get_tracks_by_artist
    rw [hp]
  · intro r hr heq
    rcases List.mem_map.mp hr with ⟨r0, hr0, hproj⟩
    rcases List.mem_filter.mp hr0 with ⟨hr0m, hflt⟩
    have hinv := mem_albumArtistLeftJoin_inv (mem_tracksLeftJoin_inv hr0m)
    cases har0 : r0.1.2 with
    | none => rw [← hproj, har0] at heq; cases heq
    | some ar =>
      have hname : ar.name = a.name := by
        rw [← hproj, har0] at heq
        simpa using heq
      have h2 := hinv.2 ar har0
      have hara : ar = a := huniq ar h2.1 hname
      exact hnoal r0.1.1 hinv.1 (hara ▸ h2.2)

/-- Witness for the amended C2: in the concrete store, the call succeeds,
the only returned row is artist Y's album row (with an absent track), and
that row does not name the album-less artist X. -/
theorem c2_zero_album_artist_yields_no_row_witness :
    get_tracks_by_artist [] stXY
        = some [((none : Option (List Char)), some "Y".toList)]
      ∧ (((none : Option (List Char)), some "Y".toList) :
          Option (List Char) × Option (List Char)).2 ≠ some "X".toList := by
  obtain ⟨rows, h1, h2⟩ := c2_zero_album_artist_yields_no_row [] stXY
    ⟨1, "X".toList⟩ (by decide) (by decide) (by decide)
  have h4 : get_tracks_by_artist [] stXY
      = some [((none : Option (List Char)), some "Y".toList)] := rfl
  rw [h1] at h4
  have hr := Option.some.inj h4
  constructor
  · rw [h1, hr]
  · refine h2 _ ?_
    rw [hr]
    decide

/-- Claim C3: a non-numeric argument makes get_customer_info return the
structured InvalidArgument signal (a value, so the process does not crash),
and it is the only one of the four tools that rejects non-numeric input —
the three music tools never produce InvalidArgument. -/
theorem c3_non_numeric_rejected_only_by_customer_tool
    (arg : List Char) (h : parseIntArg arg = none) (s : Store) :
    get_customer_info_call arg s = .error .invalidArgument
      ∧ get_albums_by_artist_call arg s ≠ .error .invalidArgument
      ∧ get_tracks_by_artist_call arg s ≠ .error .invalidArgument
      ∧ check_for_songs_call arg s ≠ .error .invalidArgument := by
  refine ⟨?_, ?_, ?_, ?_⟩
  · simp [get_customer_info_call, h]
  · unfold get_albums_by_artist_call
    cases get_albums_by_artist arg s <;> simp
  · unfold get_tracks_by_artist_call
    cases get_tracks_by_artist arg s <;> simp
  · unfold check_for_songs_call
    cases check_for_songs arg s <;> simp

/-- Witness for C3 at the concrete non-numeric argument abc. -/
theorem c3_non_numeric_witness :
    get_customer_info_call "abc".toList stAlpha
        = .error .invalidArgument
      ∧ get_albums_by_artist_call "abc".toList stAlpha
          ≠ .error .invalidArgument
      ∧ get_tracks_by_artist_call "abc".toList stAlpha
          ≠ .error .invalidArgument
      ∧ check_for_songs_call "abc".toList stAlpha
          ≠ .error .invalidArgument :=
  c3_non_numeric_rejected_only_by_customer_tool "abc".toList rfl stAlpha

/-- Claim C4: the loader must fail at startup whenever the network is
unreachable, the response is non-success, or the script is malformed.  The
code raises on a network failure and on a script error, but it never
inspects the response status (there is no raise_for_status call): a
non-success response whose body happens to execute cleanly — an empty body
is the simplest — yields a successfully built engine over a completely
empty store, and the process goes on to serve requests against it.  This
theorem evaluates the loader at that failing input: status 500 with an
empty body produces ok with the empty store, against the claim. -/
theorem c4_non_success_response_can_load_empty_store :
    get_engine_for_chinook_db executescriptEmptyOnly
        (.response 500 []) = .ok emptyStore
      ∧ emptyStore.artists = [] ∧ emptyStore.customers = []
      ∧ get_engine_for_chinook_db executescriptEmptyOnly .failed
          = .error .networkFailure
      ∧ get_engine_for_chinook_db executescriptEmptyOnly
          (.response 200 "404: Not Found".toList) = .error .scriptError := by
  exact ⟨rfl, rfl, rfl, rfl, rfl⟩

/-- Claim C5: with customer identities unique in the store, a lookup for an
existing numeric identifier returns exactly the one stored row, and a lookup
for an absent identifier returns the empty list (a value, not an
exception). -/
theorem c5_customer_lookup_exact
    (n : Int) (s : Store)
    (huniq : s.customers.Pairwise (fun a b => a.customerId ≠ b.customerId)) :
    (∀ c ∈ s.customers, c.customerId = n → get_customer_info n s = [c])
      ∧ ((∀ c ∈ s.customers, c.customerId ≠ n) →
          get_customer_info n s = []) := by
  constructor
  · intro c hc hn
    unfold get_customer_info
    exact filter_customers_unique huniq hc hn
  · intro h
    unfold get_customer_info
    exact filter_customers_none h

/-- Witness for C5 on a concrete two-customer store: id 7 returns its row,
id 5 returns nothing. -/
theorem c5_customer_lookup_witness :
    get_customer_info 7 ⟨[], [], [], [⟨7, []⟩, ⟨9, []⟩]⟩ = [⟨7, []⟩]
      ∧ get_customer_info 5 ⟨[], [], [], [⟨7, []⟩, ⟨9, []⟩]⟩ = [] :=
  ⟨(c5_customer_lookup_exact 7 ⟨[], [], [], [⟨7, []⟩, ⟨9, []⟩]⟩
      (by decide)).1 ⟨7, []⟩ (by decide) rfl,
    (c5_customer_lookup_exact 5 ⟨[], [], [], [⟨7, []⟩, ⟨9, []⟩]⟩
      (by decide)).2 (by decide)⟩

theorem evalLikeDisj_singleton (p name : List Char) :
    evalLikeDisj [p] name = likeMatch p name := by
  simp [evalLikeDisj]

/-- A two-artist store where one artist name holds a LIKE wildcard. -/
def stWild : Store :=
  ⟨[⟨1, "x%y".toList⟩, ⟨2, "xzy".toList⟩],
    [⟨1, "A".toList, 1⟩, ⟨2, "B".toList, 2⟩], [], []⟩

/-- An artist name holding a quote character. -/
def aqbName : List Char := ['a'] ++ [qc] ++ ['b']

/-- A store whose single artist has a quote in its name and owns one album
and zero tracks. -/
def stQ : Store := ⟨[⟨1, aqbName⟩], [⟨1, "A".toList, 1⟩], [], []⟩

/-- Claim C6, counterexample: the fragment x-percent-y occurs verbatim in
the first artist's name, yet the returned rows also include the album of
artist xzy, whose name does not contain the fragment — the percent sign
acts as a wildcard inside the LIKE pattern, not as literal text.  Moreover a
fragment holding a quote character (occurring in an artist name) does not
even produce a result: the interpolated query is a syntax error. -/
theorem c6_counterexample_wildcard_overmatch :
    containsCI "x%y".toList "x%y".toList = true
      ∧ containsCI "x%y".toList "xzy".toList = false
      ∧ get_albums_by_artist "x%y".toList stWild
          = some [("A".toList, "x%y".toList), ("B".toList, "xzy".toList)]
      ∧ containsCI [qc] aqbName = true
      ∧ get_albums_by_artist [qc] stQ = none := by
  exact ⟨rfl, rfl, rfl, rfl, rfl⟩

/-- Claim C6, amended: for fragments free of the LIKE wildcards (percent
sign and underscore) and of the quote character, get_albums_by_artist
returns at least the (album title, artist name) row of every album owned by
each artist whose name contains the fragment under ASCII case folding, and
every returned row belongs to an artist whose name contains the fragment.
Wildcard-bearing fragments can match additional artists, and quote-bearing
fragments derail the interpolated query (the C1 defect). -/
theorem c6_albums_by_artist_clean_fragment
    (frag : List Char) (s : Store)
    (hq : qc ∉ frag) (hw : pc ∉ frag) (hu : uc ∉ frag) :
    ∃ rows, get_albums_by_artist frag s = some rows
      ∧ (∀ ar ∈ s.artists, ∀ al ∈ s.albums, al.artistId = ar.artistId →
          containsCI frag ar.name = true → (al.title, ar.name) ∈ rows)
      ∧ (∀ r ∈ rows, ∃ ar, ar ∈ s.artists ∧ r.2 = ar.name
          ∧ containsCI frag ar.name = true) := by
  have hp := parseDisj_clean artistNameCol frag hq
  refine ⟨((albumArtistJoin s).filter
      (fun p => evalLikeDisj [pc :: (frag ++ [pc])] p.2.name)).map
      (fun p => (p.1.title, p.2.name)), ?_, ?_, ?_⟩
  · unfold get_albums_by_artist
    rw [hp]
  · intro ar har al hal hid hc
    refine List.mem_map.mpr ⟨(al, ar), ?_, rfl⟩
    refine List.mem_filter.mpr ⟨mem_albumArtistJoin.mpr ⟨hal, har, hid⟩, ?_⟩
    rw [evalLikeDisj_singleton]
    exact containsCI_likeMatch hc
  · intro r hr
    rcases List.mem_map.mp hr with ⟨p, hpmem, rfl⟩
    rcases List.mem_filter.mp hpmem with ⟨hj, hflt⟩
    rcases mem_albumArtistJoin.mp hj with ⟨hal, har, hid⟩
    refine ⟨p.2, har, rfl, ?_⟩
    rw [evalLikeDisj_singleton] at hflt
    exact (likeMatch_wrapped_iff hw hu).mp hflt

/-- A one-artist, one-album store for the C6 witness. -/
def stW2 : Store := ⟨[⟨1, "Xa".toList⟩], [⟨1, "T".toList, 1⟩], [], []⟩

/-- Witness for the amended C6 at the clean fragment x against artist Xa:
the album row is returned (case-insensitively). -/
theorem c6_albums_by_artist_clean_fragment_witness :
    get_albums_by_artist "x".toList stW2
        = some [("T".toList, "Xa".toList)]
      ∧ ("T".toList, "Xa".toList) ∈ [("T".toList, "Xa".toList)] := by
  obtain ⟨rows, h1, h2, h3⟩ := c6_albums_by_artist_clean_fragment
    "x".toList stW2 (by decide) (by decide) (by decide)
  have h4 : get_albums_by_artist "x".toList stW2
      = some [("T".toList, "Xa".toList)] := rfl
  rw [h1] at h4
  have hr := Option.some.inj h4
  constructor
  · rw [h1, hr]
  · rw [← hr]
    exact h2 ⟨1, "Xa".toList⟩ (by decide) ⟨1, "T".toList, 1⟩ (by decide)
      rfl (by decide)

/-- Claim C7, counterexample: the artist owns one album and zero tracks and
its name contains the fragment (the fragment is the name itself, which holds
a quote character), yet get_tracks_by_artist returns no row at all — the
interpolated query is a syntax error, so the promised NULL-track row never
appears. -/
theorem c7_counterexample_quote_fragment :
    containsCI aqbName aqbName = true
      ∧ stQ.albums = [⟨1, "A".toList, 1⟩]
      ∧ stQ.tracks = []
      ∧ get_tracks_by_artist aqbName stQ = none := by
  exact ⟨rfl, rfl, rfl, rfl⟩

/-- Claim C7, amended: for a fragment free of the quote character, an artist
whose name contains the fragment (ASCII case folding; wildcards in the
fragment only widen the match) and who owns an album with zero tracks still
yields a row whose track-name field is absent. -/
theorem c7_album_without_tracks_still_surfaces
    (frag : List Char) (s : Store) (ar : Artist) (al : Album)
    (hq : qc ∉ frag)
    (har : ar ∈ s.artists) (hal : al ∈ s.albums)
    (hid : al.artistId = ar.artistId)
    (hnt : ∀ t ∈ s.tracks, t.albumId ≠ some al.albumId)
    (hc : containsCI frag ar.name = true) :
    ∃ rows, get_tracks_by_artist frag s = some rows
      ∧ ((none : Option (List Char)), some ar.name) ∈ rows := by
  have hp := parseDisj_clean artistNameCol frag hq
  refine ⟨(((tracksLeftJoin s).filter (fun r =>
      match r.1.2 with
      | none => false
      | some a2 => evalLikeDisj [pc :: (frag ++ [pc])] a2.name)).map
      (fun r => (r.2.map (fun t => t.name), r.1.2.map (fun a => a.name)))),
      ?_, ?_⟩
  · unfold get_tracks_by_artist
    rw [hp]
  · have hmem1 := mem_albumArtistLeftJoin_some hal har hid
    have hfnil : s.tracks.filter (fun t => t.albumId == some al.albumId)
        = [] :=
      List.filter_eq_nil_iff.mpr (fun t ht => by simp [hnt t ht])
    have hmem2 := mem_tracksLeftJoin_none hmem1 hfnil
    refine List.mem_map.mpr ⟨((al, some ar), none), ?_, rfl⟩
    refine List.mem_filter.mpr ⟨hmem2, ?_⟩
    show evalLikeDisj [pc :: (frag ++ [pc])] ar.name = true
    rw [evalLikeDisj_singleton]
    exact containsCI_likeMatch hc

/-- A store whose single artist owns one album with zero tracks, for the C7
witness. -/
def stW3 : Store := ⟨[⟨1, "Z".toList⟩], [⟨1, "B".toList, 1⟩], [], []⟩

/-- Witness for the amended C7 at fragment z against artist Z: the returned
row list is exactly the NULL-track row for Z. -/
theorem c7_album_without_tracks_still_surfaces_witness :
    get_tracks_by_artist "z".toList stW3
        = some [((none : Option (List Char)), some "Z".toList)]
      ∧ (((none : Option (List Char)), some "Z".toList))
          ∈ [((none : Option (List Char)), some "Z".toList)] := by
  obtain ⟨rows, h1, h2⟩ := c7_album_without_tracks_still_surfaces
    "z".toList stW3 ⟨1, "Z".toList⟩ ⟨1, "B".toList, 1⟩
    (by decide) (by decide) (by decide) rfl (by decide) (by decide)
  have h4 : get_tracks_by_artist "z".toList stW3
      = some [((none : Option (List Char)), some "Z".toList)] := rfl
  rw [h1] at h4
  have hr := Option.some.inj h4
  constructor
  · rw [h1, hr]
  · rw [← hr]
    exact h2

/-- Claim C8: invoking any of the four tools, on any input, leaves the
store unchanged — their statements are reads.  The statement space of the
driver genuinely admits mutation (see the lemma below), so this is a fact
about the tool-issued statements. -/
theorem c8_tools_leave_store_unchanged (frag : List Char) (n : Int)
    (s : Store) :
    (execStmt (.selAlbums frag) s).1 = s
      ∧ (execStmt (.selTracks frag) s).1 = s
      ∧ (execStmt (.selSongs frag) s).1 = s
      ∧ (execStmt (.selCustomer n) s).1 = s := by
  exact ⟨rfl, rfl, rfl, rfl⟩

/-- The driver model does admit mutating statements: a delete erases the
album rows.  The four tools never issue one. -/
theorem execStmt_delete_mutates :
    (execStmt .deleteAlbums stAlpha).1.albums = []
      ∧ stAlpha.albums ≠ [] := by
  exact ⟨rfl, by decide⟩

/-- Claim C9: the shell loop exits exactly on an input line whose lowercase
form is one of the exit keywords, leaving the history untouched; any other
line is appended as a user entry, the full history goes to the agent
runtime, and the content of the last returned message is printed and
appended back as an assistant entry. -/
theorem c9_shell_step_behavior
    (invoke : List Msg → Option (List Msg)) (hist : List Msg)
    (line : List Char) :
    ((lowerTxt line ∈ exitWords) → shellStep invoke hist line = .exited hist)
      ∧ (∀ h, shellStep invoke hist line = .exited h →
          lowerTxt line ∈ exitWords ∧ h = hist)
      ∧ ((lowerTxt line ∉ exitWords) → ∀ msgs m,
          invoke (hist ++ [⟨userRole, line⟩]) = some msgs →
          msgs.getLast? = some m →
          shellStep invoke hist line
            = .stepped
                (hist ++ [⟨userRole, line⟩, ⟨assistantRole, m.content⟩])
                (some m.content)) := by
  by_cases hexit : lowerTxt line ∈ exitWords
  · refine ⟨fun _ => by simp [shellStep, hexit], ?_, fun hne => absurd hexit hne⟩
    intro h heq
    simp only [shellStep, if_pos hexit] at heq
    cases heq
    exact ⟨hexit, rfl⟩
  · refine ⟨fun hmem => absurd hmem hexit, ?_, ?_⟩
    · intro h heq
      exfalso
      simp only [shellStep, if_neg hexit] at heq
      cases hinv : invoke (hist ++ [⟨userRole, line⟩]) with
      | none => rw [hinv] at heq; cases heq
      | some msgs =>
        rw [hinv] at heq
        cases hlast : msgs.getLast? with
        | none => simp [hlast] at heq
        | some m => simp [hlast] at heq
    · intro _ msgs m hinv hlast
      simp only [shellStep, if_neg hexit, hinv, hlast]
      simp

/-- A deterministic stand-in agent runtime for the C9 witness: it returns
the history with one fixed assistant message appended. -/
def invokeEcho (h : List Msg) : Option (List Msg) :=
  some (h ++ [⟨assistantRole, "hi".toList⟩])

/-- Witness for C9: a greeting steps the loop with the reply printed and
appended, and the uppercase exit keyword QUIT exits with the history
untouched. -/
theorem c9_shell_step_behavior_witness :
    shellStep invokeEcho [] "Hello".toList
        = .stepped
            [⟨userRole, "Hello".toList⟩, ⟨assistantRole, "hi".toList⟩]
            (some "hi".toList)
      ∧ shellStep invokeEcho [] "QUIT".toList = .exited [] := by
  constructor
  · have h := (c9_shell_step_behavior invokeEcho [] "Hello".toList).2.2
      (by decide) [⟨userRole, "Hello".toList⟩, ⟨assistantRole, "hi".toList⟩]
      ⟨assistantRole, "hi".toList⟩ rfl rfl
    simpa using h
  · exact (c9_shell_step_behavior invokeEcho [] "QUIT".toList).1 (by decide)

theorem likeMatch_double_pct (name : List Char) :
    likeMatch [pc, pc] name = true :=
  likeMatch_pct_cons.mpr ⟨[], name, rfl, likeMatch_pct_all name⟩

/-- Claim C10: the empty fragment yields the pattern of two percent signs,
which matches every name, so get_albums_by_artist returns the full
album-artist join and check_for_songs returns every track; the empty
fragment is neither rejected nor mapped to an empty result. -/
theorem c10_empty_fragment_matches_every_row (s : Store) :
    get_albums_by_artist [] s
        = some ((albumArtistJoin s).map (fun p => (p.1.title, p.2.name)))
      ∧ check_for_songs [] s = some s.tracks := by
  have h1 := parseDisj_clean artistNameCol [] (by simp)
  have h2 := parseDisj_clean trackNameCol [] (by simp)
  constructor
  · unfold get_albums_by_artist
    simp only [h1]
    have hflt : (albumArtistJoin s).filter
        (fun p => evalLikeDisj [pc :: ([] ++ [pc])] p.2.name)
        = albumArtistJoin s :=
      List.filter_eq_self.mpr (fun p _ => by
        rw [evalLikeDisj_singleton]
        exact likeMatch_double_pct p.2.name)
    rw [hflt]
  · unfold check_for_songs
    simp only [h2]
    have hflt : s.tracks.filter
        (fun t => evalLikeDisj [pc :: ([] ++ [pc])] t.name) = s.tracks :=
      List.filter_eq_self.mpr (fun t _ => by
        rw [evalLikeDisj_singleton]
        exact likeMatch_double_pct t.name)
    rw [hflt]

end SupportBot
